import Mathlib

set_option maxHeartbeats 1000000

/-!
Verification development for the pssh file-mirroring program (src/main.rs).

Paths are modelled by their textual form as lists of characters (`Str`).
The watched (source) tree and the mirror (destination) tree are modelled as
association lists from textual paths to filesystem objects.  Machine panics
(`unwrap` / `expect` / the panic macro) are modelled as `Except` errors of
type `PanicReason`; returning such an error models deterministic process
termination.
-/

abbrev Str := List Char

/-- Boolean test that the first list is a prefix of the second
(the character-level content of str pattern matching in Rust). -/
def isPrefixB : Str → Str → Bool
  | [], _ => true
  | _ :: _, [] => false
  | a :: as, b :: bs => a == b && isPrefixB as bs

/-- Boolean test that pat occurs as a contiguous substring
(str::find(pat).is_some() / str::contains(pat)). -/
def occursB (pat : Str) : Str → Bool
  | [] => isPrefixB pat []
  | c :: cs => isPrefixB pat (c :: cs) || occursB pat cs

/-- The suffix of the subject starting at the first occurrence of pat.
This is the content of the source's k.find(location) followed by taking
k[i..]; none models the panicking unwrap when pat does not occur. -/
def findSuffix (pat : Str) : Str → Option Str
  | [] => if isPrefixB pat [] then some [] else none
  | c :: cs => if isPrefixB pat (c :: cs) then some (c :: cs) else findSuffix pat cs

/-- Fuel-bounded core of Rust str::replace with the non-empty pattern
p :: ps: scan left to right, replacing each non-overlapping leftmost match
by rep.  Each recursive call consumes at least one character of the
subject, so fuel equal to the subject's length is always sufficient; the
out-of-fuel branch is never reached from `listReplace`. -/
def replaceFuel (p : Char) (ps rep : Str) : Nat → Str → Str
  | _, [] => []
  | 0, s => s
  | n + 1, c :: cs =>
    if isPrefixB (p :: ps) (c :: cs)
    then rep ++ replaceFuel p ps rep n (cs.drop ps.length)
    else c :: replaceFuel p ps rep n cs

/-- Rust str::replace for a non-empty pattern p :: ps. -/
def listReplace (p : Char) (ps rep s : Str) : Str := replaceFuel p ps rep s.length s

/-- const DEFAULT_INBOX: &str = "INBOX/". -/
def DEFAULT_INBOX : Str := "INBOX/".data

/-- const DEFAULT_TARGET: &str = "CLONE/". -/
def DEFAULT_TARGET : Str := "CLONE/".data

/-- The tail of DEFAULT_INBOX after its head character. -/
def inboxTail : Str := "NBOX/".data

/-- fn host_path_to_target: host.replace(DEFAULT_INBOX, DEFAULT_TARGET). -/
def host_path_to_target (host : Str) : Str :=
  listReplace 'I' inboxTail DEFAULT_TARGET host

/-- fn init_inbox: parse argv (program name included).  none models
usage() followed by exit(1); the inbox auto-creation side effect is not
modelled. -/
def init_inbox (argv : List Str) : Option Str :=
  match argv.drop 1 with
  | [] => some DEFAULT_INBOX
  | opt :: rest =>
    if opt = "-d".data then
      match rest with
      | dir :: _ => some dir
      | [] => none
    else none


/-- A filesystem object of the watched tree: a regular file with
modification time and an abstract content identifier, or a directory
with a modification time (std::fs::metadata succeeds on both and both
carry a modification time). -/
inductive FsEntry
  | file (mtime : Nat) (content : Nat)
  | dir (mtime : Nat)
deriving DecidableEq, Repr

/-- The watched (source) tree at one instant: textual path to object. -/
abbrev SrcFs := List (Str × FsEntry)

def lookupFs : SrcFs → Str → Option FsEntry
  | [], _ => none
  | (q, ent) :: rest, pth => if q = pth then some ent else lookupFs rest pth

/-- md.modified().unwrap(): every existing object yields its mtime. -/
def FsEntry.mtimeOf : FsEntry → Nat
  | .file t _ => t
  | .dir t => t

/-- The FileIndex map (HashMap of PathBuf to SystemTime) and, reused with
the same key semantics, the destination file table. -/
abbrev Index := List (Str × Nat)

def lookupIdx : Index → Str → Option Nat
  | [], _ => none
  | (q, v) :: rest, k => if q = k then some v else lookupIdx rest k

/-- HashMap::remove. -/
def eraseKey : Index → Str → Index
  | [], _ => []
  | (q, v) :: rest, k => if q = k then eraseKey rest k else (q, v) :: eraseKey rest k

/-- HashMap::insert (replaces any previous binding of the key). -/
def insertKey (idx : Index) (k : Str) (v : Nat) : Index := (k, v) :: eraseKey idx k


/-- notify::event::CreateKind. -/
inductive CreateKind
  | any | file | folder | otherKind
deriving DecidableEq, Repr

/-- notify::event::RemoveKind. -/
inductive RemoveKind
  | any | file | folder | otherKind
deriving DecidableEq, Repr

/-- The event kinds the program distinguishes: Create with its sub-kind,
Modify (whose sub-kind the source ignores), Remove with its sub-kind, and
every other kind (Access, Any, Other), which the source's catch-all arm
treats alike. -/
inductive EventKind
  | create (ck : CreateKind)
  | modify
  | remove (rk : RemoveKind)
  | otherEvent
deriving DecidableEq, Repr

/-- notify::Event: a kind plus the native paths; a path is none when its
text cannot be decoded (to_str() returning None). -/
structure Event where
  kind : EventKind
  paths : List (Option Str)
deriving DecidableEq, Repr

/-- Reasons the process panics (terminates deterministically). -/
inductive PanicReason
  | emptyPaths | invalidUnicode | rootNotFound | statFailed
  | retryFailed | copyOtherFailed | invalidMirrorEvent
deriving DecidableEq, Repr

/-- FileIndex::handle_event: resolve the first path against the watched
root by substring search, then dispatch on the event kind, mutating the
index and returning the relative path of the normalized change (none for
ignored notifications).  Fatal unwraps are Except errors. -/
def handle_event (fs : SrcFs) (location : Str) (idx : Index) (e : Event) :
    Except PanicReason (Index × Option Str) :=
  match e.paths with
  | [] => .error .emptyPaths
  | none :: _ => .error .invalidUnicode
  | some s :: _ =>
    match findSuffix location s with
    | none => .error .rootNotFound
    | some k =>
      match e.kind with
      | .create ck =>
        match lookupFs fs k with
        | none => .ok (idx, none)
        | some ent =>
          if ck = CreateKind.folder then .ok (idx, none)
          else .ok (insertKey idx k ent.mtimeOf, some k)
      | .modify =>
        match lookupFs fs k with
        | none => .ok (idx, none)
        | some (.dir _) => .ok (idx, none)
        | some (.file t _) => .ok (insertKey idx k t, some k)
      | .remove rk =>
        if rk = RemoveKind.folder then .ok (idx, none)
        else .ok (eraseKey idx k, some k)
      | .otherEvent => .ok (idx, none)

/-- The relative path handle_event resolves for an event, when no panic
occurs during resolution. -/
def resolveEvent (location : Str) (e : Event) : Option Str :=
  match e.paths with
  | some s :: _ => findSuffix location s
  | _ => none

/-- The modification time the source tree records for pth when pth is a
regular file there. -/
def srcFileMtime (fs : SrcFs) (pth : Str) : Option Nat :=
  match lookupFs fs pth with
  | some (.file t _) => some t
  | _ => none

/-- Event kinds that insert into the index when the path is a regular
file: Modify, and Create with any sub-kind other than Folder. -/
def kindOKB : EventKind → Bool
  | .modify => true
  | .create CreateKind.folder => false
  | .create _ => true
  | _ => false

/-- Sequential processing of notifications, each paired with the source
tree as it stands when that notification is processed. -/
def runEvents (location : Str) (idx : Index) : List (SrcFs × Event) → Except PanicReason Index
  | [] => .ok idx
  | (fs, e) :: rest =>
    match handle_event fs location idx e with
    | .error r => .error r
    | .ok (idx', _) => runEvents location idx' rest

def fileIndexNewGo (fs : SrcFs) (idx : Index) : List Str → Except PanicReason Index
  | [] => .ok idx
  | f :: rest =>
    match lookupFs fs f with
    | none => .error .statFailed
    | some ent => fileIndexNewGo fs (insertKey idx f ent.mtimeOf) rest

/-- FileIndex::new: stat every scanned path and record its mtime; a path
that vanished between the scan and the stat is a fatal startup error. -/
def fileIndexNew (fs : SrcFs) : Option (List Str) → Except PanicReason Index
  | none => .ok []
  | some files => fileIndexNewGo fs [] files

/-- The mirror (destination) tree: the set of directories that exist and
a table of files (path to content identifier). -/
structure DestFs where
  dirs : List Str
  files : Index
deriving DecidableEq, Repr

/-- PathBuf::pop rendered textually: remove the last slash-separated
component (the empty string models the current working directory). -/
def parentOf (pth : Str) : Str :=
  match pth.reverse.dropWhile (fun c => c ≠ '/') with
  | [] => []
  | _ :: rest => rest.reverse

/-- The chain pth, parentOf pth, ... of directories fs::create_dir_all
brings into existence; fuelled by the path length, which bounds the
chain's depth since each parent is strictly shorter. -/
def ancestorsAux : Nat → Str → List Str
  | 0, _ => []
  | _ + 1, [] => []
  | n + 1, c :: cs => (c :: cs) :: ancestorsAux n (parentOf (c :: cs))

/-- fs::create_dir_all: create the directory and all missing ancestors.
Creation itself is modelled as always succeeding. -/
def createDirAll (d : DestFs) (pth : Str) : DestFs :=
  { d with dirs := ancestorsAux (pth.length + 1) pth ++ d.dirs }

/-- Whether a directory path exists in the destination (the empty parent,
the working directory, always exists). -/
def dirExists (d : DestFs) (pth : Str) : Bool := pth.isEmpty || d.dirs.contains pth

/-- The two classes of I/O error the source distinguishes:
ErrorKind::NotFound and everything else. -/
inductive IoErrorKind
  | notFound | otherErr
deriving DecidableEq, Repr

/-- tokio::fs::copy(f, t) against the model: NotFound when the source
file or the destination parent directory is missing; a non-NotFound error
when the source is a directory or the destination path is an existing
directory; otherwise the destination file table gains t with the source's
content. -/
def fsCopy (src : SrcFs) (dest : DestFs) (f t : Str) : Except IoErrorKind DestFs :=
  match lookupFs src f with
  | some (.file _ c) =>
    if dirExists dest (parentOf t) then
      if dest.dirs.contains t then .error .otherErr
      else .ok { dest with files := insertKey dest.files t c }
    else .error .notFound
  | some (.dir _) => .error .otherErr
  | none => .error .notFound

/-- tokio::fs::remove_file(t): NotFound when t is absent, a non-NotFound
error when t is a directory. -/
def fsRemoveFile (dest : DestFs) (t : Str) : Except IoErrorKind DestFs :=
  if dest.dirs.contains t then .error .otherErr
  else
    match lookupIdx dest.files t with
    | some _ => .ok { dest with files := eraseKey dest.files t }
    | none => .error .notFound

/-- Outcome of one mirror invocation: success, an io::Result error value
returned to the caller (which logs it and continues), or an internal
panic (process termination). -/
inductive MirrorResult
  | ok (dest : DestFs)
  | err (dest : DestFs) (k : IoErrorKind)
  | panicked (r : PanicReason)
deriving DecidableEq, Repr

/-- fn copy_with_dir: try fs::copy; on a NotFound failure create the
destination's parent directory chain and retry exactly once, panicking if
the retry fails; panic at once on any non-NotFound first failure. -/
def copy_with_dir (src : SrcFs) (dest : DestFs) (f t : Str) : MirrorResult :=
  match fsCopy src dest f t with
  | .ok d => .ok d
  | .error .notFound =>
    match fsCopy src (createDirAll dest (parentOf t)) f t with
    | .ok d => .ok d
    | .error _ => .panicked .retryFailed
  | .error .otherErr => .panicked .copyOtherFailed

/-- fn mirror(host_file, event): the destination path is always
host_path_to_target of the host path.  No event (initial sync) and
Create events use copy_with_dir; Modify copies directly when the host
path is currently a regular file, returning (not raising) any error;
Remove deletes the mirrored file, returning any error; any other kind is
an invalid-argument panic. -/
def mirror (src : SrcFs) (dest : DestFs) (hostFile : Str) (ev : Option Event) : MirrorResult :=
  let target := host_path_to_target hostFile
  match ev with
  | none => copy_with_dir src dest hostFile target
  | some e =>
    match e.kind with
    | .create _ => copy_with_dir src dest hostFile target
    | .modify =>
      match lookupFs src hostFile with
      | some (.file _ _) =>
        match fsCopy src dest hostFile target with
        | .ok d => .ok d
        | .error ek => .err dest ek
      | _ => .ok dest
    | .remove _ =>
      match fsRemoveFile dest target with
      | .ok d => .ok d
      | .error ek => .err dest ek
    | .otherEvent => .panicked .invalidMirrorEvent

/-- One iteration of the orchestrator loop on a notification: reconcile
via handle_event; when a normalized change is emitted, run the mirror
step, logging (and otherwise ignoring) a returned error.  The Bool
records whether the mirror step was invoked. -/
def processNotification (src : SrcFs) (dest : DestFs) (location : Str) (idx : Index)
    (e : Event) : Except PanicReason (Index × DestFs × Bool) :=
  match handle_event src location idx e with
  | .error r => .error r
  | .ok (idx', none) => .ok (idx', dest, false)
  | .ok (idx', some k) =>
    match mirror src dest k (some e) with
    | .ok d => .ok (idx', d, true)
    | .err d _ => .ok (idx', d, true)
    | .panicked r => .error r


theorem default_inbox_eq : DEFAULT_INBOX = 'I' :: inboxTail := rfl

theorem isPrefixB_iff : ∀ (p s : Str), isPrefixB p s = true ↔ ∃ t, s = p ++ t := by
  intro p
  induction p with
  | nil => intro s; simp [isPrefixB]
  | cons a as ih =>
    intro s
    cases s with
    | nil => simp [isPrefixB]
    | cons b bs =>
      simp only [isPrefixB, Bool.and_eq_true, beq_iff_eq, ih, List.cons_append,
        List.cons.injEq]
      constructor
      · rintro ⟨rfl, t, rfl⟩
        exact ⟨t, rfl, rfl⟩
      · rintro ⟨t, rfl, rfl⟩
        exact ⟨rfl, t, rfl⟩

theorem isPrefixB_append (p t : Str) : isPrefixB p (p ++ t) = true :=
  (isPrefixB_iff p (p ++ t)).2 ⟨t, rfl⟩

theorem occursB_iff : ∀ (pat s : Str), occursB pat s = true ↔ ∃ u v, s = u ++ pat ++ v := by
  intro pat s
  induction s with
  | nil =>
    simp only [occursB, isPrefixB_iff]
    constructor
    · rintro ⟨t, ht⟩
      exact ⟨[], t, ht⟩
    · rintro ⟨u, v, huv⟩
      have h := huv.symm
      simp only [List.append_assoc, List.append_eq_nil] at h
      exact ⟨[], by simp [h.1, h.2.1, h.2.2]⟩
  | cons c cs ih =>
    simp only [occursB, Bool.or_eq_true, isPrefixB_iff, ih]
    constructor
    · rintro (⟨t, ht⟩ | ⟨u, v, huv⟩)
      · exact ⟨[], t, by simpa using ht⟩
      · exact ⟨c :: u, v, by simp [huv]⟩
    · rintro ⟨u, v, huv⟩
      cases u with
      | nil => exact Or.inl ⟨v, by simpa using huv⟩
      | cons x xs =>
        right
        refine ⟨xs, v, ?_⟩
        have := huv
        simp only [List.cons_append, List.cons.injEq] at this
        exact this.2

theorem replaceFuel_congr (p : Char) (ps rep : Str) :
    ∀ (f₁ : Nat) (s : Str) (f₂ : Nat), s.length ≤ f₁ → s.length ≤ f₂ →
      replaceFuel p ps rep f₁ s = replaceFuel p ps rep f₂ s := by
  intro f₁
  induction f₁ with
  | zero =>
    intro s f₂ h1 _
    have hs : s = [] := List.eq_nil_of_length_eq_zero (Nat.le_zero.mp h1)
    subst hs
    cases f₂ <;> rfl
  | succ n ih =>
    intro s f₂ h1 h2
    cases s with
    | nil => cases f₂ <;> rfl
    | cons c cs =>
      cases f₂ with
      | zero => simp at h2
      | succ m =>
        simp only [replaceFuel]
        by_cases hp : isPrefixB (p :: ps) (c :: cs) = true
        · rw [if_pos hp, if_pos hp]
          have hd1 : (cs.drop ps.length).length ≤ n := by
            simp only [List.length_drop]
            simp only [List.length_cons] at h1
            omega
          have hd2 : (cs.drop ps.length).length ≤ m := by
            simp only [List.length_drop]
            simp only [List.length_cons] at h2
            omega
          rw [ih (cs.drop ps.length) m hd1 hd2]
        · rw [if_neg hp, if_neg hp]
          have hd1 : cs.length ≤ n := by
            simp only [List.length_cons] at h1; omega
          have hd2 : cs.length ≤ m := by
            simp only [List.length_cons] at h2; omega
          rw [ih cs m hd1 hd2]

theorem listReplace_nil (p : Char) (ps rep : Str) : listReplace p ps rep [] = [] := rfl

theorem listReplace_cons (p : Char) (ps rep : Str) (c : Char) (cs : Str) :
    listReplace p ps rep (c :: cs)
      = if isPrefixB (p :: ps) (c :: cs)
        then rep ++ listReplace p ps rep (cs.drop ps.length)
        else c :: listReplace p ps rep cs := by
  show replaceFuel p ps rep (cs.length + 1) (c :: cs) = _
  by_cases hp : isPrefixB (p :: ps) (c :: cs) = true
  · simp only [replaceFuel, if_pos hp]
    rw [replaceFuel_congr p ps rep cs.length (cs.drop ps.length)
      ((cs.drop ps.length).length) (by simp only [List.length_drop]; omega) le_rfl]
    rfl
  · simp only [replaceFuel, if_neg hp]
    rfl

theorem listReplace_not_occurs (p : Char) (ps rep : Str) :
    ∀ (s : Str), occursB (p :: ps) s = false → listReplace p ps rep s = s := by
  intro s
  induction s with
  | nil => intro _; rfl
  | cons c cs ih =>
    intro h
    simp only [occursB, Bool.or_eq_false_iff] at h
    rw [listReplace_cons, if_neg (by simp [h.1]), ih h.2]

theorem listReplace_decomp (p : Char) (ps rep : Str) :
    ∀ (a b : Str), occursB (p :: ps) ((a ++ (p :: ps)).dropLast) = false →
      listReplace p ps rep (a ++ (p :: ps) ++ b) = a ++ rep ++ listReplace p ps rep b := by
  intro a
  induction a with
  | nil =>
    intro b _
    simp only [List.nil_append]
    have hcons : (p :: ps) ++ b = p :: (ps ++ b) := rfl
    have hpos : isPrefixB (p :: ps) (p :: (ps ++ b)) = true := by
      rw [← hcons]; exact isPrefixB_append (p :: ps) b
    rw [hcons, listReplace_cons, if_pos hpos, List.drop_left ps b]
  | cons x xs ih =>
    intro b h
    have hpre : isPrefixB (p :: ps) (x :: (xs ++ (p :: ps) ++ b)) = false := by
      by_contra hc
      rw [Bool.not_eq_false] at hc
      obtain ⟨t, ht⟩ := (isPrefixB_iff _ _).1 hc
      apply absurd h
      rw [Bool.not_eq_false, occursB_iff]
      have hL : x :: (xs ++ (p :: ps) ++ b) = ((x :: xs) ++ (p :: ps)) ++ b := by
        simp
      have htake : (p :: ps) = ((x :: xs) ++ (p :: ps)).take (p :: ps).length := by
        have h1 : (((x :: xs) ++ (p :: ps)) ++ b).take (p :: ps).length
            = ((x :: xs) ++ (p :: ps)).take (p :: ps).length :=
          List.take_append_of_le_length (by simp; omega)
        rw [← h1, ← hL, ht, List.take_left]
      have hlen : (p :: ps).length ≤ ((x :: xs) ++ (p :: ps)).length - 1 := by
        simp only [List.length_cons, List.length_append]
        omega
      have hdl : (p :: ps) = ((x :: xs) ++ (p :: ps)).dropLast.take (p :: ps).length := by
        rw [List.dropLast_eq_take, List.take_take,
          min_eq_left hlen, ← htake]
      refine ⟨[], ((x :: xs) ++ (p :: ps)).dropLast.drop (p :: ps).length, ?_⟩
      conv_lhs => rw [← List.take_append_drop (p :: ps).length
        (((x :: xs) ++ (p :: ps)).dropLast)]
      rw [← hdl, List.nil_append]
    have hsub : (x :: xs) ++ (p :: ps) ++ b = x :: (xs ++ (p :: ps) ++ b) := by simp
    rw [hsub, listReplace_cons, if_neg (by simp only [hpre]; exact Bool.false_ne_true)]
    have hxs : occursB (p :: ps) ((xs ++ (p :: ps)).dropLast) = false := by
      have hne : xs ++ (p :: ps) ≠ [] := by simp
      have hrw : ((x :: xs) ++ (p :: ps)).dropLast = x :: (xs ++ (p :: ps)).dropLast := by
        rw [List.cons_append, List.dropLast_cons_of_ne_nil hne]
      rw [hrw] at h
      simp only [occursB, Bool.or_eq_false_iff] at h
      exact h.2
    rw [ih b hxs]
    simp

theorem lookupIdx_eraseKey (idx : Index) (k pth : Str) :
    lookupIdx (eraseKey idx k) pth = if pth = k then none else lookupIdx idx pth := by
  induction idx with
  | nil => simp [eraseKey, lookupIdx]
  | cons e rest ih =>
    obtain ⟨q, v⟩ := e
    simp only [eraseKey]
    by_cases hq : q = k
    · subst hq
      rw [if_pos rfl, ih]
      by_cases hpk : pth = q
      · simp [hpk]
      · rw [if_neg hpk, if_neg hpk]
        simp only [lookupIdx]
        rw [if_neg (fun h => hpk h.symm)]
    · rw [if_neg hq]
      by_cases hqp : q = pth
      · have hpk : pth ≠ k := fun hpk => hq (hqp.trans hpk)
        simp [lookupIdx, hqp, hpk]
      · simp only [lookupIdx, if_neg hqp]
        exact ih

theorem lookupIdx_insertKey (idx : Index) (k pth : Str) (v : Nat) :
    lookupIdx (insertKey idx k v) pth = if pth = k then some v else lookupIdx idx pth := by
  simp only [insertKey, lookupIdx]
  by_cases hpk : pth = k
  · simp [hpk]
  · rw [if_neg (fun h => hpk h.symm), if_neg hpk, lookupIdx_eraseKey, if_neg hpk]

theorem eraseKey_of_lookup_none (idx : Index) (k : Str) :
    lookupIdx idx k = none → eraseKey idx k = idx := by
  induction idx with
  | nil => intro _; rfl
  | cons e rest ih =>
    obtain ⟨q, v⟩ := e
    intro h
    simp only [lookupIdx] at h
    by_cases hq : q = k
    · simp [hq] at h
    · simp only [eraseKey, if_neg hq]
      rw [ih (by simpa [hq] using h)]

/-- C1, counterexample: the path translation substitutes only the
hardcoded "INBOX/", not the inbox root configured with -d.  With
configured root DATA/ (accepted by init_inbox), a path containing that
configured root is returned unchanged, not with DATA/ substituted by
CLONE/ as substituting the configured prefix would yield. -/
theorem c1_counterexample :
    init_inbox ["fm".data, "-d".data, "DATA/".data] = some "DATA/".data
    ∧ occursB "DATA/".data "DATA/a/b.txt".data = true
    ∧ host_path_to_target "DATA/a/b.txt".data = "DATA/a/b.txt".data
    ∧ listReplace 'D' "ATA/".data DEFAULT_TARGET "DATA/a/b.txt".data
        = "CLONE/a/b.txt".data :=
  ⟨rfl, by decide, rfl, rfl⟩

/-- C1, amended: for every path containing the hardcoded default inbox
prefix INBOX/ (regardless of the root configured with -d),
host_path_to_target substitutes the occurrences of INBOX/ by CLONE/: the
text before the leftmost occurrence is kept, the occurrence becomes
CLONE/ and the remainder is translated recursively; in particular the
mirror path of INBOX/a/b.txt is exactly CLONE/a/b.txt. -/
theorem c1_translation_amended :
    (∀ a b : Str, occursB DEFAULT_INBOX ((a ++ DEFAULT_INBOX).dropLast) = false →
      host_path_to_target (a ++ DEFAULT_INBOX ++ b)
        = a ++ DEFAULT_TARGET ++ host_path_to_target b)
    ∧ host_path_to_target "INBOX/a/b.txt".data = "CLONE/a/b.txt".data := by
  constructor
  · intro a b h
    rw [default_inbox_eq] at h
    simp only [host_path_to_target, default_inbox_eq]
    exact listReplace_decomp 'I' inboxTail DEFAULT_TARGET a b h
  · rfl

theorem c1_translation_amended_witness :
    occursB DEFAULT_INBOX (("x/".data ++ DEFAULT_INBOX).dropLast) = false
    ∧ host_path_to_target ("x/".data ++ DEFAULT_INBOX ++ "a.txt".data)
        = "x/".data ++ DEFAULT_TARGET ++ host_path_to_target "a.txt".data :=
  ⟨by decide, c1_translation_amended.1 "x/".data "a.txt".data (by decide)⟩

/-- C9: host_path_to_target replaces every occurrence of the literal
INBOX/ by CLONE/ — a path with no occurrence is returned unchanged, the
leftmost occurrence (leading or not) is replaced and the remainder is
translated recursively, and no configured root is consulted (witnessed
concretely by a path with two non-leading occurrences). -/
theorem c9_replace_every_occurrence :
    (∀ s : Str, occursB DEFAULT_INBOX s = false → host_path_to_target s = s)
    ∧ (∀ a b : Str, occursB DEFAULT_INBOX ((a ++ DEFAULT_INBOX).dropLast) = false →
        host_path_to_target (a ++ DEFAULT_INBOX ++ b)
          = a ++ DEFAULT_TARGET ++ host_path_to_target b)
    ∧ host_path_to_target "a/INBOX/bINBOX/c".data = "a/CLONE/bCLONE/c".data := by
  refine ⟨?_, ?_, rfl⟩
  · intro s h
    rw [default_inbox_eq] at h
    simp only [host_path_to_target]
    exact listReplace_not_occurs 'I' inboxTail DEFAULT_TARGET s h
  · intro a b h
    rw [default_inbox_eq] at h
    simp only [host_path_to_target, default_inbox_eq]
    exact listReplace_decomp 'I' inboxTail DEFAULT_TARGET a b h

theorem c9_replace_every_occurrence_witness :
    occursB DEFAULT_INBOX "a/b.txt".data = false
    ∧ host_path_to_target "a/b.txt".data = "a/b.txt".data :=
  ⟨by decide, c9_replace_every_occurrence.1 "a/b.txt".data (by decide)⟩

/-- C7: a notification whose first path cannot be decoded, or whose
first path does not contain the watched root's textual form, is a
deterministic fatal condition in handle_event: the invalid-unicode and
root-not-found panics respectively, independent of the tree, index and
event kind. -/
theorem c7_bad_path_fatal :
    (∀ (fs : SrcFs) (loc : Str) (idx : Index) (kd : EventKind) (rest : List (Option Str)),
      handle_event fs loc idx ⟨kd, none :: rest⟩ = .error .invalidUnicode)
    ∧ (∀ (fs : SrcFs) (loc : Str) (idx : Index) (kd : EventKind) (s : Str)
        (rest : List (Option Str)),
        findSuffix loc s = none →
        handle_event fs loc idx ⟨kd, some s :: rest⟩ = .error .rootNotFound) := by
  constructor
  · intro fs loc idx kd rest
    rfl
  · intro fs loc idx kd s rest h
    simp only [handle_event, h]

theorem c7_bad_path_fatal_witness :
    handle_event [] "INBOX/".data [] ⟨EventKind.modify, [some "/tmp/x".data]⟩
      = .error .rootNotFound :=
  c7_bad_path_fatal.2 [] "INBOX/".data [] EventKind.modify "/tmp/x".data [] (by decide)

/-- C6: reconciling a non-directory Remove for a path with no index entry
does not fail, leaves the index unchanged, still emits the Removed change
for the resolved path, and never consults the source tree (the result is
the same over any two trees, so the target's existence is not
re-checked). -/
theorem c6_remove_idempotent (fs fs' : SrcFs) (loc : Str) (idx : Index) (s k : Str)
    (rest : List (Option Str)) (rk : RemoveKind)
    (hfind : findSuffix loc s = some k)
    (hrk : rk ≠ RemoveKind.folder)
    (habsent : lookupIdx idx k = none) :
    handle_event fs loc idx ⟨.remove rk, some s :: rest⟩ = .ok (idx, some k)
    ∧ handle_event fs loc idx ⟨.remove rk, some s :: rest⟩
        = handle_event fs' loc idx ⟨.remove rk, some s :: rest⟩ := by
  constructor
  · simp only [handle_event, hfind, if_neg hrk, eraseKey_of_lookup_none idx k habsent]
  · simp only [handle_event, hfind]

theorem c6_remove_idempotent_witness :
    handle_event [("INBOX/w".data, FsEntry.file 1 0)] "INBOX/".data [("INBOX/w".data, 1)]
        ⟨.remove RemoveKind.file, [some "INBOX/z".data]⟩
      = .ok ([("INBOX/w".data, 1)], some "INBOX/z".data)
    ∧ handle_event [("INBOX/w".data, FsEntry.file 1 0)] "INBOX/".data [("INBOX/w".data, 1)]
        ⟨.remove RemoveKind.file, [some "INBOX/z".data]⟩
      = handle_event [] "INBOX/".data [("INBOX/w".data, 1)]
        ⟨.remove RemoveKind.file, [some "INBOX/z".data]⟩ :=
  c6_remove_idempotent [("INBOX/w".data, FsEntry.file 1 0)] [] "INBOX/".data
    [("INBOX/w".data, 1)] "INBOX/z".data "INBOX/z".data [] RemoveKind.file
    (by decide) (by decide) (by decide)

/-- C8: ignored notifications — a Create whose path has vanished, a
folder-kind Create, a Modify whose path has vanished or has become a
directory, a folder-kind Remove, or any other event kind — leave the
index unchanged and produce no mirror invocation in the orchestrator
step. -/
theorem c8_ignored_no_effect (src : SrcFs) (dest : DestFs) (loc : Str) (idx : Index)
    (e : Event) (s k : Str) (rest : List (Option Str))
    (hpaths : e.paths = some s :: rest)
    (hfind : findSuffix loc s = some k)
    (hign : (∃ ck, e.kind = .create ck ∧ lookupFs src k = none)
      ∨ e.kind = .create CreateKind.folder
      ∨ (e.kind = .modify ∧ lookupFs src k = none)
      ∨ (e.kind = .modify ∧ ∃ t, lookupFs src k = some (.dir t))
      ∨ e.kind = .remove RemoveKind.folder
      ∨ e.kind = .otherEvent) :
    handle_event src loc idx e = .ok (idx, none)
    ∧ processNotification src dest loc idx e = .ok (idx, dest, false) := by
  obtain ⟨kd, ps⟩ := e
  simp only at hpaths
  subst hpaths
  have hhe : handle_event src loc idx ⟨kd, some s :: rest⟩ = .ok (idx, none) := by
    rcases hign with ⟨ck, hk, hl⟩ | hk | ⟨hk, hl⟩ | ⟨hk, t, hl⟩ | hk | hk <;>
        simp only at hk <;> subst hk
    · simp [handle_event, hfind, hl]
    · cases hl : lookupFs src k <;> simp [handle_event, hfind, hl]
    · simp [handle_event, hfind, hl]
    · simp [handle_event, hfind, hl]
    · simp [handle_event, hfind]
    · simp [handle_event, hfind]
  exact ⟨hhe, by simp [processNotification, hhe]⟩

theorem c8_ignored_no_effect_witness :
    handle_event [] "INBOX/".data [] ⟨EventKind.create CreateKind.file,
      [some "INBOX/gone".data]⟩ = .ok ([], none)
    ∧ processNotification [] ⟨["CLONE".data], []⟩ "INBOX/".data []
        ⟨EventKind.create CreateKind.file, [some "INBOX/gone".data]⟩
      = .ok ([], ⟨["CLONE".data], []⟩, false) :=
  c8_ignored_no_effect [] ⟨["CLONE".data], []⟩ "INBOX/".data []
    ⟨EventKind.create CreateKind.file, [some "INBOX/gone".data]⟩
    "INBOX/gone".data "INBOX/gone".data [] rfl (by decide)
    (Or.inl ⟨CreateKind.file, rfl, rfl⟩)

/-- C10: the index mutation performed by reconcile is complete before the
mirror step runs and is never undone by it: a step that completes yields
exactly the index handle_event alone computed, and hence the same index
over any two destination trees. -/
theorem c10_index_free_of_mirror_outcome :
    (∀ (src : SrcFs) (loc : Str) (idx : Index) (e : Event) (dest : DestFs)
        (idx' : Index) (d : DestFs) (b : Bool),
        processNotification src dest loc idx e = .ok (idx', d, b) →
        ∃ em, handle_event src loc idx e = .ok (idx', em))
    ∧ (∀ (src : SrcFs) (loc : Str) (idx : Index) (e : Event) (dest₁ dest₂ : DestFs)
        (r₁ r₂ : Index × DestFs × Bool),
        processNotification src dest₁ loc idx e = .ok r₁ →
        processNotification src dest₂ loc idx e = .ok r₂ →
        r₁.1 = r₂.1) := by
  have key : ∀ (src : SrcFs) (loc : Str) (idx : Index) (e : Event) (dest : DestFs)
      (idx' : Index) (d : DestFs) (b : Bool),
      processNotification src dest loc idx e = .ok (idx', d, b) →
      ∃ em, handle_event src loc idx e = .ok (idx', em) := by
    intro src loc idx e dest idx' d b h
    unfold processNotification at h
    split at h
    · exact Except.noConfusion h
    · rename_i i2 heq
      injection h with h2
      exact ⟨none, heq.trans (by rw [(Prod.mk.injEq ..).mp h2 |>.1])⟩
    · rename_i i2 k heq
      split at h
      · rename_i d2 hm
        injection h with h2
        exact ⟨some k, heq.trans (by rw [(Prod.mk.injEq ..).mp h2 |>.1])⟩
      · rename_i d2 ek hm
        injection h with h2
        exact ⟨some k, heq.trans (by rw [(Prod.mk.injEq ..).mp h2 |>.1])⟩
      · exact Except.noConfusion h
  refine ⟨key, ?_⟩
  intro src loc idx e dest₁ dest₂ r₁ r₂ h₁ h₂
  obtain ⟨idx₁, d₁, b₁⟩ := r₁
  obtain ⟨idx₂, d₂, b₂⟩ := r₂
  obtain ⟨em₁, he₁⟩ := key src loc idx e dest₁ idx₁ d₁ b₁ h₁
  obtain ⟨em₂, he₂⟩ := key src loc idx e dest₂ idx₂ d₂ b₂ h₂
  have hteq := he₁.symm.trans he₂
  simp only [Except.ok.injEq, Prod.mk.injEq] at hteq
  exact hteq.1

theorem c10_index_free_of_mirror_outcome_witness :
    ∃ em, handle_event [("INBOX/x".data, FsEntry.file 5 0)] "INBOX/".data []
      ⟨EventKind.modify, [some "INBOX/x".data]⟩ = .ok ([("INBOX/x".data, 5)], em) :=
  c10_index_free_of_mirror_outcome.1 [("INBOX/x".data, FsEntry.file 5 0)] "INBOX/".data []
    ⟨EventKind.modify, [some "INBOX/x".data]⟩ ⟨["CLONE".data], []⟩
    [("INBOX/x".data, 5)] ⟨["CLONE".data], [("CLONE/x".data, 0)]⟩ true rfl

/-- C3, counterexample: a failure of the mirror step can escalate to
process termination.  A Create change is emitted for INBOX/x, and the
mirror copy fails with a non-NotFound error (the destination path is an
existing directory), which copy_with_dir turns into a panic: the
orchestrator step ends the process instead of logging and continuing. -/
theorem c3_counterexample :
    handle_event [("INBOX/x".data, FsEntry.file 5 0)] "INBOX/".data []
        ⟨EventKind.create CreateKind.file, [some "INBOX/x".data]⟩
      = .ok ([("INBOX/x".data, 5)], some "INBOX/x".data)
    ∧ processNotification [("INBOX/x".data, FsEntry.file 5 0)]
        ⟨["CLONE".data, "CLONE/x".data], []⟩ "INBOX/".data []
        ⟨EventKind.create CreateKind.file, [some "INBOX/x".data]⟩
      = .error PanicReason.copyOtherFailed :=
  ⟨rfl, rfl⟩

/-- C3, amended: a failure the mirror step returns as an io::Result error
(Modified-path copy errors and Removed-path delete errors) is logged and
the orchestrator loop continues with the reconciled index retained;
a failure inside the Added copy path is a panic and terminates the
process. -/
theorem c3_mirror_error_logged (src : SrcFs) (dest : DestFs) (loc : Str) (idx : Index)
    (e : Event) (idx' : Index) (k : Str) :
    (∀ (d : DestFs) (ek : IoErrorKind),
      handle_event src loc idx e = .ok (idx', some k) →
      mirror src dest k (some e) = .err d ek →
      processNotification src dest loc idx e = .ok (idx', d, true))
    ∧ (∀ r : PanicReason,
      handle_event src loc idx e = .ok (idx', some k) →
      mirror src dest k (some e) = .panicked r →
      processNotification src dest loc idx e = .error r) := by
  constructor
  · intro d ek h1 h2
    simp only [processNotification, h1, h2]
  · intro r h1 h2
    simp only [processNotification, h1, h2]

theorem c3_mirror_error_logged_witness :
    processNotification [] ⟨[], []⟩ "INBOX/".data []
      ⟨EventKind.remove RemoveKind.file, [some "INBOX/x".data]⟩
      = .ok ([], ⟨[], []⟩, true) :=
  (c3_mirror_error_logged [] ⟨[], []⟩ "INBOX/".data []
    ⟨EventKind.remove RemoveKind.file, [some "INBOX/x".data]⟩ [] "INBOX/x".data).1
    ⟨[], []⟩ IoErrorKind.notFound rfl rfl

theorem dirExists_createDirAll (d : DestFs) (pth : Str) (h : pth ≠ []) :
    dirExists (createDirAll d pth) pth = true := by
  cases pth with
  | nil => exact absurd rfl h
  | cons c cs =>
    simp [dirExists, createDirAll, ancestorsAux, List.contains_cons]

/-- C4, counterexample: for a Modified change the mirror engine creates
no missing destination directory and performs no retry: the copy failure
for a missing parent is returned as an error (logged, not fatal) and the
destination is left untouched — although copy_with_dir on the same input
would have created CLONE/a and completed the copy, as the claim
demands. -/
theorem c4_counterexample :
    mirror [("INBOX/a/x".data, FsEntry.file 5 0)] ⟨[], []⟩ "INBOX/a/x".data
        (some ⟨EventKind.modify, [some "INBOX/a/x".data]⟩)
      = MirrorResult.err ⟨[], []⟩ IoErrorKind.notFound
    ∧ copy_with_dir [("INBOX/a/x".data, FsEntry.file 5 0)] ⟨[], []⟩ "INBOX/a/x".data
        "CLONE/a/x".data
      = MirrorResult.ok ⟨["CLONE/a".data, "CLONE".data], [("CLONE/a/x".data, 0)]⟩ :=
  ⟨rfl, rfl⟩

/-- C4, amended: Added changes go through copy_with_dir — a successful
first copy mirrors the file; a NotFound first failure with the parent
directory really missing is repaired by creating the full directory chain
once and retrying once, successfully when the source file exists; when
the retry also fails (source missing) or the first failure is not
NotFound (source a directory) the failure is a fatal panic.  Modified
changes are copied directly once, with no directory creation and no
retry, and a failure is returned as an error (logged by the caller), the
destination unchanged. -/
theorem c4_added_retry_modified_plain :
    (∀ (src : SrcFs) (dest : DestFs) (k : Str) (ck : CreateKind) (ps : List (Option Str)),
      mirror src dest k (some ⟨.create ck, ps⟩)
        = copy_with_dir src dest k (host_path_to_target k))
    ∧ (∀ (src : SrcFs) (dest : DestFs) (f t : Str) (d : DestFs),
      fsCopy src dest f t = .ok d → copy_with_dir src dest f t = .ok d)
    ∧ (∀ (src : SrcFs) (dest : DestFs) (f t : Str) (mt c : Nat),
      lookupFs src f = some (.file mt c) →
      dirExists dest (parentOf t) = false →
      (createDirAll dest (parentOf t)).dirs.contains t = false →
      copy_with_dir src dest f t
        = .ok { createDirAll dest (parentOf t) with
            files := insertKey (createDirAll dest (parentOf t)).files t c })
    ∧ (∀ (src : SrcFs) (dest : DestFs) (f t : Str),
      lookupFs src f = none → copy_with_dir src dest f t = .panicked .retryFailed)
    ∧ (∀ (src : SrcFs) (dest : DestFs) (f t : Str) (mt : Nat),
      lookupFs src f = some (.dir mt) →
      copy_with_dir src dest f t = .panicked .copyOtherFailed)
    ∧ (∀ (src : SrcFs) (dest : DestFs) (k : Str) (mt c : Nat) (ps : List (Option Str))
        (ek : IoErrorKind),
      lookupFs src k = some (.file mt c) →
      fsCopy src dest k (host_path_to_target k) = .error ek →
      mirror src dest k (some ⟨.modify, ps⟩) = .err dest ek) := by
  refine ⟨?_, ?_, ?_, ?_, ?_, ?_⟩
  · intro src dest k ck ps
    rfl
  · intro src dest f t d h
    simp [copy_with_dir, h]
  · intro src dest f t mt c hf hdE hnc
    have hpne : parentOf t ≠ [] := by
      intro hp
      rw [hp] at hdE
      simp [dirExists] at hdE
    have hfirst : fsCopy src dest f t = .error .notFound := by
      simp [fsCopy, hf, hdE]
    have hdE2 : dirExists (createDirAll dest (parentOf t)) (parentOf t) = true :=
      dirExists_createDirAll dest (parentOf t) hpne
    have hnc' : ¬ t ∈ (createDirAll dest (parentOf t)).dirs := by
      simpa using hnc
    simp [copy_with_dir, hfirst, fsCopy, hf, hdE, hdE2, hnc']
  · intro src dest f t h
    simp [copy_with_dir, fsCopy, h]
  · intro src dest f t mt h
    simp [copy_with_dir, fsCopy, h]
  · intro src dest k mt c ps ek hf hcopy
    simp [mirror, hf, hcopy]

theorem c4_added_retry_modified_plain_witness :
    copy_with_dir [("INBOX/a/x".data, FsEntry.file 5 0)] ⟨[], []⟩ "INBOX/a/x".data
        "CLONE/a/x".data
      = MirrorResult.ok { createDirAll ⟨[], []⟩ (parentOf "CLONE/a/x".data) with
          files := insertKey (createDirAll ⟨[], []⟩ (parentOf "CLONE/a/x".data)).files
            "CLONE/a/x".data 0 }
    ∧ copy_with_dir [] ⟨[], []⟩ "INBOX/y".data "CLONE/y".data
      = MirrorResult.panicked .retryFailed :=
  ⟨c4_added_retry_modified_plain.2.2.1 [("INBOX/a/x".data, FsEntry.file 5 0)] ⟨[], []⟩
      "INBOX/a/x".data "CLONE/a/x".data 5 0 rfl (by decide) (by decide),
    c4_added_retry_modified_plain.2.2.2.1 [] ⟨[], []⟩ "INBOX/y".data "CLONE/y".data rfl⟩

theorem srcFileMtime_isSome_iff (fs : SrcFs) (P : Str) :
    (srcFileMtime fs P).isSome = true ↔ ∃ t c, lookupFs fs P = some (.file t c) := by
  unfold srcFileMtime
  cases h : lookupFs fs P with
  | none => simp
  | some ent => cases ent <;> simp

theorem handle_event_insert (fs : SrcFs) (loc : Str) (idx : Index) (e : Event)
    (P : Str) (t c : Nat)
    (hres : resolveEvent loc e = some P)
    (hkind : kindOKB e.kind = true)
    (hfile : lookupFs fs P = some (.file t c)) :
    handle_event fs loc idx e = .ok (insertKey idx P t, some P) := by
  obtain ⟨kd, ps⟩ := e
  cases ps with
  | nil => simp [resolveEvent] at hres
  | cons o rest =>
    cases o with
    | none => simp [resolveEvent] at hres
    | some s =>
      simp only [resolveEvent] at hres
      cases kd with
      | create ck =>
        cases ck <;> simp_all [handle_event, kindOKB, FsEntry.mtimeOf]
      | modify => simp [handle_event, hres, hfile, FsEntry.mtimeOf]
      | remove rk => simp [kindOKB] at hkind
      | otherEvent => simp [kindOKB] at hkind

theorem fileIndexNewGo_lookup (fs : SrcFs) :
    ∀ (files : List Str) (idx0 idx : Index),
      fileIndexNewGo fs idx0 files = .ok idx →
      ∀ (pth : Str) (t : Nat), lookupIdx idx pth = some t →
        lookupIdx idx0 pth = some t
        ∨ (pth ∈ files ∧ ∃ ent, lookupFs fs pth = some ent ∧ ent.mtimeOf = t) := by
  intro files
  induction files with
  | nil =>
    intro idx0 idx h pth t hl
    simp only [fileIndexNewGo] at h
    injection h with h
    subst h
    exact Or.inl hl
  | cons f rest ih =>
    intro idx0 idx h pth t hl
    simp only [fileIndexNewGo] at h
    split at h
    · exact Except.noConfusion h
    · rename_i ent hf
      rcases ih (insertKey idx0 f ent.mtimeOf) idx h pth t hl with h0 | ⟨hmem, hent⟩
      · rw [lookupIdx_insertKey] at h0
        by_cases hpf : pth = f
        · rw [if_pos hpf] at h0
          injection h0 with h0
          refine Or.inr ⟨?_, ent, ?_, h0⟩
          · rw [hpf]; exact List.mem_cons_self f rest
          · rw [hpf]; exact hf
        · rw [if_neg hpf] at h0
          exact Or.inl h0
      · exact Or.inr ⟨List.mem_cons_of_mem f hmem, hent⟩

/-- C2, counterexample: a Create notification whose sub-kind is not
Folder, processed while the path is a directory, inserts that directory
into the index — so a directory path can be an entry of the index even
though it was never known to be a regular file. -/
theorem c2_counterexample :
    lookupFs [("INBOX/d".data, FsEntry.dir 7)] "INBOX/d".data = some (FsEntry.dir 7)
    ∧ handle_event [("INBOX/d".data, FsEntry.dir 7)] "INBOX/".data []
        ⟨EventKind.create CreateKind.file, [some "INBOX/d".data]⟩
      = .ok ([("INBOX/d".data, 7)], some "INBOX/d".data)
    ∧ lookupIdx [("INBOX/d".data, 7)] "INBOX/d".data = some 7 :=
  ⟨rfl, rfl, rfl⟩

/-- C2, amended: after construction from scanned regular files every
entry records a then-existing regular file with its mtime; after a
reconcile step every entry either predates the step, or records a path
that existed as a regular file with that mtime when the step ran, or —
only for a Create event whose sub-kind is not Folder — a path that
existed as a directory with that mtime; and an event of insert-kind
(Modify, or non-Folder Create) on a then-existing regular file does leave
the file's mtime as the path's entry. -/
theorem c2_index_entry_invariant :
    (∀ (fs : SrcFs) (files : List Str) (idx : Index),
      (∀ f ∈ files, ∃ t c, lookupFs fs f = some (.file t c)) →
      fileIndexNew fs (some files) = .ok idx →
      ∀ (pth : Str) (t : Nat), lookupIdx idx pth = some t →
        ∃ c, lookupFs fs pth = some (.file t c))
    ∧ (∀ (fs : SrcFs) (loc : Str) (idx : Index) (e : Event) (idx' : Index)
        (em : Option Str),
        handle_event fs loc idx e = .ok (idx', em) →
        ∀ (pth : Str) (t : Nat), lookupIdx idx' pth = some t →
          lookupIdx idx pth = some t
          ∨ (∃ c, lookupFs fs pth = some (.file t c))
          ∨ (∃ ck, e.kind = .create ck ∧ ck ≠ CreateKind.folder
              ∧ lookupFs fs pth = some (.dir t)))
    ∧ (∀ (fs : SrcFs) (loc : Str) (idx : Index) (e : Event) (idx' : Index)
        (em : Option Str) (P : Str) (t c : Nat),
        resolveEvent loc e = some P →
        kindOKB e.kind = true →
        lookupFs fs P = some (.file t c) →
        handle_event fs loc idx e = .ok (idx', em) →
        lookupIdx idx' P = some t) := by
  refine ⟨?_, ?_, ?_⟩
  · intro fs files idx hfiles hnew pth t hl
    simp only [fileIndexNew] at hnew
    rcases fileIndexNewGo_lookup fs files [] idx hnew pth t hl with h0 | ⟨hmem, ent, hent, hmt⟩
    · simp [lookupIdx] at h0
    · obtain ⟨t', c, hf⟩ := hfiles pth hmem
      rw [hf] at hent
      injection hent with hent
      subst hent
      simp only [FsEntry.mtimeOf] at hmt
      subst hmt
      exact ⟨c, hf⟩
  · intro fs loc idx e idx' em h pth t hl
    obtain ⟨kd, ps⟩ := e
    cases ps with
    | nil => exact Except.noConfusion h
    | cons o rest =>
      cases o with
      | none => exact Except.noConfusion h
      | some s =>
        cases kd with
        | create ck =>
          simp only [handle_event] at h
          split at h
          · exact Except.noConfusion h
          · rename_i k hfind
            split at h
            · injection h with h2
              injection h2 with ha hb
              subst ha
              exact Or.inl hl
            · rename_i ent hlook
              split at h
              · injection h with h2
                injection h2 with ha hb
                subst ha
                exact Or.inl hl
              · rename_i hck
                injection h with h2
                injection h2 with ha hb
                subst ha
                rw [lookupIdx_insertKey] at hl
                by_cases hpk : pth = k
                · subst hpk
                  rw [if_pos rfl] at hl
                  injection hl with hl
                  cases ent with
                  | file t' c =>
                    simp only [FsEntry.mtimeOf] at hl
                    subst hl
                    exact Or.inr (Or.inl ⟨c, hlook⟩)
                  | dir t' =>
                    simp only [FsEntry.mtimeOf] at hl
                    subst hl
                    exact Or.inr (Or.inr ⟨ck, rfl, hck, hlook⟩)
                · rw [if_neg hpk] at hl
                  exact Or.inl hl
        | modify =>
          simp only [handle_event] at h
          split at h
          · exact Except.noConfusion h
          · rename_i k hfind
            split at h
            · injection h with h2
              injection h2 with ha hb
              subst ha
              exact Or.inl hl
            · injection h with h2
              injection h2 with ha hb
              subst ha
              exact Or.inl hl
            · rename_i t' c hlook
              injection h with h2
              injection h2 with ha hb
              subst ha
              rw [lookupIdx_insertKey] at hl
              by_cases hpk : pth = k
              · subst hpk
                rw [if_pos rfl] at hl
                injection hl with hl
                subst hl
                exact Or.inr (Or.inl ⟨c, hlook⟩)
              · rw [if_neg hpk] at hl
                exact Or.inl hl
        | remove rk =>
          simp only [handle_event] at h
          split at h
          · exact Except.noConfusion h
          · rename_i k hfind
            split at h
            · injection h with h2
              injection h2 with ha hb
              subst ha
              exact Or.inl hl
            · injection h with h2
              injection h2 with ha hb
              subst ha
              rw [lookupIdx_eraseKey] at hl
              by_cases hpk : pth = k
              · rw [if_pos hpk] at hl
                exact Option.noConfusion hl
              · rw [if_neg hpk] at hl
                exact Or.inl hl
        | otherEvent =>
          simp only [handle_event] at h
          split at h
          · exact Except.noConfusion h
          · injection h with h2
            injection h2 with ha hb
            subst ha
            exact Or.inl hl
  · intro fs loc idx e idx' em P t c hres hkind hfile h
    have hhe := handle_event_insert fs loc idx e P t c hres hkind hfile
    rw [hhe] at h
    injection h with h2
    injection h2 with ha hb
    subst ha
    rw [lookupIdx_insertKey, if_pos rfl]

theorem c2_index_entry_invariant_witness :
    (∃ c, lookupFs [("INBOX/x".data, FsEntry.file 5 0)] "INBOX/x".data
      = some (FsEntry.file 5 c))
    ∧ (lookupIdx [] "INBOX/d".data = some 7
      ∨ (∃ c, lookupFs [("INBOX/d".data, FsEntry.dir 7)] "INBOX/d".data
          = some (FsEntry.file 7 c))
      ∨ (∃ ck, (⟨EventKind.create CreateKind.file,
            [some "INBOX/d".data]⟩ : Event).kind = .create ck
          ∧ ck ≠ CreateKind.folder
          ∧ lookupFs [("INBOX/d".data, FsEntry.dir 7)] "INBOX/d".data
              = some (FsEntry.dir 7)))
    ∧ lookupIdx [("INBOX/x".data, 5)] "INBOX/x".data = some 5 := by
  refine ⟨?_, ?_, ?_⟩
  · exact c2_index_entry_invariant.1 [("INBOX/x".data, FsEntry.file 5 0)]
      ["INBOX/x".data] [("INBOX/x".data, 5)]
      (by intro f hf; simp at hf; subst hf; exact ⟨5, 0, rfl⟩) rfl
      "INBOX/x".data 5 rfl
  · exact c2_index_entry_invariant.2.1 [("INBOX/d".data, FsEntry.dir 7)] "INBOX/".data
      [] ⟨EventKind.create CreateKind.file, [some "INBOX/d".data]⟩
      [("INBOX/d".data, 7)] (some "INBOX/d".data) rfl "INBOX/d".data 7 rfl
  · exact c2_index_entry_invariant.2.2 [("INBOX/x".data, FsEntry.file 5 0)] "INBOX/".data
      [] ⟨EventKind.modify, [some "INBOX/x".data]⟩ [("INBOX/x".data, 5)]
      (some "INBOX/x".data) "INBOX/x".data 5 0 rfl rfl rfl rfl

/-- C5, counterexample: a Create notification with the Folder sub-kind is
ignored even when the path is a regular file at processing time, so after
such a sequence the index entry (3, from before) differs from the file's
actual modification time at the last processed notification (5). -/
theorem c5_counterexample :
    srcFileMtime [("INBOX/p".data, FsEntry.file 5 0)] "INBOX/p".data = some 5
    ∧ runEvents "INBOX/".data [("INBOX/p".data, 3)]
        [([("INBOX/p".data, FsEntry.file 5 0)],
          ⟨EventKind.create CreateKind.folder, [some "INBOX/p".data]⟩)]
      = .ok [("INBOX/p".data, 3)]
    ∧ lookupIdx [("INBOX/p".data, 3)] "INBOX/p".data = some 3
    ∧ (3 : Nat) ≠ 5 :=
  ⟨rfl, rfl, rfl, by decide⟩

/-- C5, amended: for a non-empty sequence of Create/Modify notifications
resolving to a path P, where no Create carries the Folder sub-kind and P
is a regular file of the source tree each time a notification is
processed, processing the whole sequence succeeds in leaving, as the
index entry for P, exactly P's modification time at the moment the last
notification was processed. -/
theorem c5_last_write_wins :
    ∀ (evs : List (SrcFs × Event)) (loc P : Str) (idx0 idxF : Index)
      (pr : SrcFs × Event),
      evs.getLast? = some pr →
      (∀ q ∈ evs, resolveEvent loc q.2 = some P
        ∧ (srcFileMtime q.1 P).isSome = true
        ∧ kindOKB q.2.kind = true) →
      runEvents loc idx0 evs = .ok idxF →
      lookupIdx idxF P = srcFileMtime pr.1 P := by
  intro evs
  induction evs with
  | nil =>
    intro loc P idx0 idxF pr hlast
    exact absurd hlast (by simp)
  | cons q rest ih =>
    intro loc P idx0 idxF pr hlast hall hrun
    obtain ⟨fs, e⟩ := q
    obtain ⟨hres, hsome, hkd⟩ := hall (fs, e) (List.mem_cons_self _ _)
    obtain ⟨t, c, hfile⟩ := (srcFileMtime_isSome_iff fs P).1 hsome
    have hhe := handle_event_insert fs loc idx0 e P t c hres hkd hfile
    simp only [runEvents, hhe] at hrun
    cases rest with
    | nil =>
      simp only [runEvents] at hrun
      injection hrun with hrun
      subst hrun
      simp only [List.getLast?_singleton, Option.some.injEq] at hlast
      rw [← hlast]
      rw [lookupIdx_insertKey, if_pos rfl]
      simp [srcFileMtime, hfile]
    | cons q2 rest2 =>
      have hlast2 : (q2 :: rest2).getLast? = some pr := by
        rw [← List.getLast?_cons_cons]
        exact hlast
      exact ih loc P (insertKey idx0 P t) idxF pr hlast2
        (fun r hr => hall r (List.mem_cons_of_mem _ hr)) hrun

theorem c5_last_write_wins_witness :
    lookupIdx [("INBOX/p".data, 9)] "INBOX/p".data
      = srcFileMtime [("INBOX/p".data, FsEntry.file 9 1)] "INBOX/p".data :=
  c5_last_write_wins
    [([("INBOX/p".data, FsEntry.file 4 0)], ⟨EventKind.modify, [some "INBOX/p".data]⟩),
     ([("INBOX/p".data, FsEntry.file 9 1)],
       ⟨EventKind.create CreateKind.file, [some "INBOX/p".data]⟩)]
    "INBOX/".data "INBOX/p".data [] [("INBOX/p".data, 9)]
    ([("INBOX/p".data, FsEntry.file 9 1)],
      ⟨EventKind.create CreateKind.file, [some "INBOX/p".data]⟩)
    rfl (by decide) rfl
